/-
  Verification of the aspect-ratio bucket index manager
  (helpers/multiaspect/bucket.py and helpers/data_backend/aws.py).

  The Python code is shallowly embedded: the manager state is a structure
  holding the bucket index (a Python dict, embedded as an insertion-ordered
  association list, faithful to Python 3.7+ dict key order), the discovered
  set `instance_images_path` (a Python set, embedded as a duplicate-free list
  with deterministic insertion order; only membership and no-change equality
  are relied on, matching the determinism of one CPython process), and the
  configured `batch_size`.  Operations that can raise in Python return
  `Except PyError`; operations with no raising point are total functions.
  Backend writes are returned explicitly as the list of serialized cache
  documents written during the call.
-/
import Mathlib

namespace SimpleTuner

/-- Python exceptions that the embedded code paths can raise. -/
inductive PyError where
  | keyError (k : String)
  | attributeError (name : String)
  | typeError (msg : String)
deriving DecidableEq, Repr

/-- The field `aspect_ratio_bucket_indices`: a Python dict from bucket key to list of
image paths, embedded as an insertion-ordered association list. -/
abbrev BucketIndex := List (String × List String)

/-- The mutable state of a `BucketManager` instance that the verified
operations touch (bucket.py lines 29-33). -/
structure BucketState where
  aspect_ratio_bucket_indices : BucketIndex
  instance_images_path : List String
  batch_size : Nat
deriving DecidableEq, Repr

/-- Python `d[key]` read on a dict: the value of the first (unique, in any
real dict) entry with that key, `none` when absent (KeyError at call sites). -/
def lookupB (idx : BucketIndex) (key : String) : Option (List String) :=
  match idx with
  | [] => none
  | (k, v) :: rest => if k = key then some v else lookupB rest key

/-- Python `d[key] = value` on a key already present: replaces the value of
the first entry with that key, leaving key order unchanged. -/
def updateValue (idx : BucketIndex) (key : String) (newVal : List String) : BucketIndex :=
  match idx with
  | [] => []
  | (k, v) :: rest =>
      if k = key then (key, newVal) :: rest else (k, v) :: updateValue rest key newVal

/-- Python `d.setdefault(key, []).extend(vs)` (bucket.py line 187): extends
the existing list for `key`, creating the key at the end of the dict when
absent. -/
def setdefaultExtend (idx : BucketIndex) (key : String) (vs : List String) : BucketIndex :=
  match lookupB idx key with
  | some v => updateValue idx key (v ++ vs)
  | none => idx ++ [(key, vs)]

/-- Python `s.update(xs)` on a set: inserts every element of `xs` not already
present (deterministic insertion-order model of a CPython set). -/
def setUpdate (s : List String) (xs : List String) : List String :=
  xs.foldl (fun acc x => if x ∈ acc then acc else acc ++ [x]) s

/-- Python `set(xs)`. -/
def pySetOfList (xs : List String) : List String := setUpdate [] xs

/-- Python `set().union(*xss)` (bucket.py line 153).  The bound method
`union` of the fresh empty set accepts an empty argument pack, in which case
it returns the empty set; it has no failure mode. -/
def pySetUnionStar (xss : List (List String)) : List String :=
  xss.foldl setUpdate []

/-- Shard sizes of `np.array_split(xs, n)`: the first `len % n` shards have
`len / n + 1` elements, the rest have `len / n`. -/
def splitSizes (len n : Nat) : List Nat :=
  (List.range n).map (fun i => if i < len % n then len / n + 1 else len / n)

/-- Splits a list into consecutive chunks of the given sizes. -/
def takeChunks : List Nat → List String → List (List String)
  | [], _ => []
  | s :: rest, xs => xs.take s :: takeChunks rest (xs.drop s)

/-- Embeds `np.array_split(xs, n)` (bucket.py line 156). -/
def array_split (xs : List String) (n : Nat) : List (List String) :=
  takeChunks (splitSizes xs.length n) xs

/-- JSON string literal as produced by `json.dumps` (quote and backslash
escaped; paths in this system contain neither, so the remaining escapes of
`json.dumps` are not exercised). -/
def jsonStr (s : String) : String :=
  "\"" ++ String.join (s.toList.map (fun c =>
    if c = '"' then "\\\"" else if c = '\\' then "\\\\" else c.toString)) ++ "\""

/-- JSON array of strings with the default `json.dumps` separator. -/
def jsonList (xs : List String) : String :=
  "[" ++ String.intercalate ", " (xs.map jsonStr) ++ "]"

/-- JSON object for the bucket index. -/
def jsonIndex (idx : BucketIndex) : String :=
  "\x7b" ++ String.intercalate ", "
    (idx.map (fun e => jsonStr e.1 ++ ": " ++ jsonList e.2)) ++ "\x7d"

/-- Embeds `json.dumps(cache_data)` for the cache document built in `_save_cache`
(bucket.py lines 102-106): exactly two fields, the stringified index and the
stringified discovered list. -/
def serializeCache (idx : BucketIndex) (images : List String) : String :=
  "\x7b\"aspect_ratio_bucket_indices\": " ++ jsonIndex idx ++
    ", \"instance_images_path\": " ++ jsonList images ++ "\x7d"

/-- Embeds `_enforce_min_bucket_size` (bucket.py lines 279-288): deletes every
bucket whose image count is strictly below `batch_size`. -/
def _enforce_min_bucket_size (st : BucketState) : BucketState :=
  { st with aspect_ratio_bucket_indices :=
      st.aspect_ratio_bucket_indices.filter (fun e => st.batch_size ≤ e.2.length) }

/-- Embeds `_save_cache` (bucket.py lines 90-108): prunes small buckets, then
serializes the pruned index and the discovered set (string coercion is the
identity here since both already hold strings) and writes the document.  The
written document is returned alongside the new state. -/
def _save_cache (st : BucketState) : BucketState × String :=
  let st' := _enforce_min_bucket_size st
  (st', serializeCache st'.aspect_ratio_bucket_indices st'.instance_images_path)

/-- Embeds `_discover_new_files` (bucket.py lines 44-65): flattens the
`(dir, subdirs, files)` triples returned by `data_backend.list_files` and
keeps the files not already in `instance_images_path`. -/
def _discover_new_files (listing : List (String × List String × List String))
    (st : BucketState) : List String :=
  let all_image_files := (listing.map (fun e => e.2.2)).flatten
  all_image_files.filter (fun f => decide (f ∉ st.instance_images_path))

/-- Modelled from the spec: `MultiaspectImage.process_for_bucket`
(helpers/multiaspect/image.py is not under src/).  Per spec section 4.2 the
BucketAssigner computes the aspect-ratio bucket key of one file and the entry
is inserted into the worker-local index; a per-file assignment
failure is caught and the file is skipped.  `assign` returns the bucket key,
or `none` when assignment fails for that file. -/
def process_for_bucket (assign : String → Option String) (file : String)
    (idx : BucketIndex) : BucketIndex :=
  match assign file with
  | some key => setdefaultExtend idx key [file]
  | none => idx

/-- Embeds `_bucket_worker` (bucket.py lines 110-137): builds a worker-local
index over one shard, skipping files already in
`existing_files_set`. -/
def _bucket_worker (assign : String → Option String) (existing_files_set : List String)
    (files : List String) : BucketIndex :=
  files.foldl
    (fun acc file =>
      if file ∈ existing_files_set then acc else process_for_bucket assign file acc) []

/-- The aggregation loop body (bucket.py lines 182-189): merges one worker-local
index into the shared index by `setdefault(key, []).extend(value)`. -/
def mergeLocalIndex (idx pidx : BucketIndex) : BucketIndex :=
  pidx.foldl (fun acc e => setdefaultExtend acc e.1 e.2) idx

/-- Embeds `compute_aspect_ratio_bucket_indices` (bucket.py lines 139-196).
Worker-local indices arrive on a queue in nondeterministic order; the
embedding merges them in shard order, a deterministic representative.
Returns the new state and the list of cache documents written. -/
def compute_aspect_ratio_bucket_indices (assign : String → Option String)
    (listing : List (String × List String × List String))
    (st : BucketState) : BucketState × List String :=
  let new_files := _discover_new_files listing st
  if new_files.isEmpty then (st, [])
  else
    let existing_files_set :=
      pySetUnionStar (st.aspect_ratio_bucket_indices.map Prod.snd)
    let files_split := array_split new_files 8
    let localIndices := files_split.map (_bucket_worker assign existing_files_set)
    let merged := localIndices.foldl mergeLocalIndex st.aspect_ratio_bucket_indices
    let st' := { st with
      aspect_ratio_bucket_indices := merged,
      instance_images_path := setUpdate st.instance_images_path new_files }
    let saved := _save_cache st'
    (saved.1, [saved.2])

/-- Embeds `update_buckets_with_existing_files` (bucket.py lines 239-251): filters
every bucket down to the supplied existing files, then saves (which prunes
and writes). -/
def update_buckets_with_existing_files (existing_files : List String)
    (st : BucketState) : BucketState × String :=
  let filtered := st.aspect_ratio_bucket_indices.map
    (fun e => (e.1, e.2.filter (fun img => decide (img ∈ existing_files))))
  let st' := { st with aspect_ratio_bucket_indices := filtered }
  _save_cache st'

/-- Embeds `refresh_buckets` (bucket.py lines 253-277): compute (ingest new files),
re-list, and remove stale entries.  Returns the new state and all cache
documents written during the call, in order. -/
def refresh_buckets (assign : String → Option String)
    (listing : List (String × List String × List String))
    (st : BucketState) : BucketState × List String :=
  let computed := compute_aspect_ratio_bucket_indices assign listing st
  let existing_files := pySetOfList ((listing.map (fun e => e.2.2)).flatten)
  let updated := update_buckets_with_existing_files existing_files computed.1
  (updated.1, computed.2 ++ [updated.2])

/-- Embeds `remove_image` (bucket.py lines 225-237).  The subscript
`self.aspect_ratio_bucket_indices[bucket]` raises `KeyError` when the bucket
key is absent; otherwise `list.remove` deletes the first occurrence when
present and the method is a no-op when not. -/
def remove_image (image_path bucket : String) (st : BucketState) :
    Except PyError BucketState :=
  match lookupB st.aspect_ratio_bucket_indices bucket with
  | none => .error (.keyError bucket)
  | some imgs =>
      if image_path ∈ imgs then
        .ok { st with aspect_ratio_bucket_indices :=
                updateValue st.aspect_ratio_bucket_indices bucket (imgs.erase image_path) }
      else .ok st

/-- Embeds `handle_incorrect_bucket` (bucket.py lines 290-308): remove from the
claimed bucket, then append to the actual bucket, creating it when absent. -/
def handle_incorrect_bucket (image_path bucket actual_bucket : String)
    (st : BucketState) : Except PyError BucketState := do
  let st1 ← remove_image image_path bucket st
  match lookupB st1.aspect_ratio_bucket_indices actual_bucket with
  | some v =>
      pure { st1 with aspect_ratio_bucket_indices :=
              updateValue st1.aspect_ratio_bucket_indices actual_bucket (v ++ [image_path]) }
  | none =>
      pure { st1 with aspect_ratio_bucket_indices :=
              st1.aspect_ratio_bucket_indices ++ [(actual_bucket, [image_path])] }

/-- The attribute names defined on `S3DataBackend` (aws.py lines 25-116),
together with the storage contract operations of the base class.  The base
class file helpers/data_backend/base.py is not under src/; modelled from the
spec, its StorageBackend contract (section 6) declares exists, read, write,
delete, list_by_prefix and list_files.  Neither source defines a method
named "remove". -/
def backendMethodNames : List String :=
  ["exists", "read", "open_file", "write", "delete", "list_by_prefix",
   "list_files", "_convert_path_to_key", "read_image", "create_directory",
   "torch_load", "torch_save"]

/-- Python `str.split(sep)` over the character list: splits at every
separator occurrence, keeping empty segments, and yields one (possibly
empty) segment even for the empty string. -/
def splitChars (sep : Char) : List Char → List (List Char)
  | [] => [[]]
  | c :: rest =>
      let r := splitChars sep rest
      if c = sep then [] :: r
      else
        match r with
        | [] => [[c]]
        | g :: gs => (c :: g) :: gs

/-- Embeds `S3DataBackend._convert_path_to_key` (aws.py lines 85-95):
`path.split("/")[-1]`, the basename of a slash-separated path. -/
def _convert_path_to_key (path : String) : String :=
  ((((splitChars '/' path.toList).map (fun cs => String.mk cs)).reverse).headD) path

/-- Embeds `S3DataBackend.delete` (aws.py lines 72-74): removes the object stored
under the converted key. -/
def S3DataBackend_delete (objects : List String) (s3_key : String) : List String :=
  objects.erase (_convert_path_to_key s3_key)

/-- Python attribute dispatch of `self.data_backend.remove(image_path)`
(bucket.py line 326) against the S3 backend: the attribute lookup raises
`AttributeError` because no such method exists; had it existed it would have
deleted the object. -/
def backendInvokeRemove (objects : List String) (image_path : String) :
    Except PyError (List String) :=
  if "remove" ∈ backendMethodNames then .ok (S3DataBackend_delete objects image_path)
  else .error (.attributeError "remove")

/-- Embeds `handle_small_image` (bucket.py lines 310-335): when
`delete_unwanted_images` is set, the backend call is attempted inside
`try:  except Exception: pass`; then the image is removed from its bucket
(outside any try).  `objects` is the set of keys stored in the backend. -/
def handle_small_image (image_path bucket : String) (delete_unwanted_images : Bool)
    (st : BucketState) (objects : List String) :
    Except PyError (BucketState × List String) := do
  let objects' :=
    if delete_unwanted_images then
      match backendInvokeRemove objects image_path with
      | .ok o => o
      | .error _ => objects
    else objects
  let st' ← remove_image image_path bucket st
  pure (st', objects')

/-- Two bucket entries hold disjoint image lists: no image of the first
appears in the second. -/
def entriesDisjoint (e1 e2 : String × List String) : Prop :=
  ∀ p ∈ e1.2, p ∉ e2.2

instance : DecidableRel entriesDisjoint :=
  fun e1 e2 => List.decidableBAll (fun p => p ∉ e2.2) e1.2

/-- The no-cross-bucket-duplication invariant of spec section 3: no image
path appears in two different buckets of the index. -/
def NoCrossDup (idx : BucketIndex) : Prop :=
  idx.Pairwise entriesDisjoint

/-- Bucket keys are pairwise distinct, as they are in any Python dict. -/
def NodupKeys (idx : BucketIndex) : Prop :=
  (idx.map Prod.fst).Nodup

/-- Well-formedness of a manager state: distinct bucket keys and no
cross-bucket duplication.  Holds for the empty index. -/
def InvGood (st : BucketState) : Prop :=
  NodupKeys st.aspect_ratio_bucket_indices ∧ NoCrossDup st.aspect_ratio_bucket_indices

/-- One mutating operation of the manager, as invoked by its callers:
compute/merge, refresh, stale-entry removal, save (eviction), repair
removals, small-image handling, and `handle_incorrect_bucket` restricted to
calls whose `image_path` actually sits (once) in the claimed source bucket.
Operations that raise produce no transition. -/
inductive Step : BucketState → BucketState → Prop where
  | compute (assign : String → Option String)
      (listing : List (String × List String × List String)) (s : BucketState) :
      Step s (compute_aspect_ratio_bucket_indices assign listing s).1
  | refresh (assign : String → Option String)
      (listing : List (String × List String × List String)) (s : BucketState) :
      Step s (refresh_buckets assign listing s).1
  | update (existing : List String) (s : BucketState) :
      Step s (update_buckets_with_existing_files existing s).1
  | save (s : BucketState) : Step s (_save_cache s).1
  | removeImg (p b : String) (s s' : BucketState) :
      remove_image p b s = .ok s' → Step s s'
  | smallImg (p b : String) (d : Bool) (objs objs' : List String) (s s' : BucketState) :
      handle_small_image p b d s objs = .ok (s', objs') → Step s s'
  | moveImg (p b a : String) (imgs : List String) (s s' : BucketState) :
      lookupB s.aspect_ratio_bucket_indices b = some imgs → imgs.count p = 1 →
      handle_incorrect_bucket p b a s = .ok s' → Step s s'

/-- A decoded JSON value, as produced by `json.loads`. -/
inductive JValue where
  | null
  | bool (b : Bool)
  | num (n : Int)
  | str (s : String)
  | arr (xs : List JValue)
  | obj (kvs : List (String × JValue))

/-- What the cache file looks like to `_load_cache` (bucket.py lines 67-88):
absent (`exists` is false), present but the backend read raises, present but
`json.loads` raises, or present and decoded to a JSON value. -/
inductive CacheBytes where
  | absent
  | unreadable
  | undecodable
  | decoded (v : JValue)

/-- Python `cache_data.get(key, default)`: a dict answers the lookup with the
default for a missing key; any other decoded value has no `get` attribute and
the access raises `AttributeError`. -/
def pyDictGet (v : JValue) (key : String) (dflt : JValue) : Except PyError JValue :=
  match v with
  | .obj kvs =>
      .ok ((((kvs.find? (fun e => decide (e.1 = key))).map Prod.snd)).getD dflt)
  | _ => .error (.attributeError "get")

/-- Whether a JSON value is hashable as a Python set element. -/
def jHashable : JValue → Bool
  | .arr _ => false
  | .obj _ => false
  | _ => true

/-- Iterating a decoded JSON value in Python: lists yield their elements,
strings their characters, dicts their keys; numbers, booleans and null are
not iterable. -/
def jIterate : JValue → Option (List JValue)
  | .arr xs => some xs
  | .str s => some (s.toList.map (fun c => .str c.toString))
  | .obj kvs => some (kvs.map (fun e => .str e.1))
  | _ => none

/-- Equality used for set deduplication of the (hashable, scalar) elements. -/
def jEqScalar : JValue → JValue → Bool
  | .null, .null => true
  | .bool a, .bool b => a = b
  | .num a, .num b => a = b
  | .str a, .str b => a = b
  | _, _ => false

/-- Python `set(v)` on a decoded JSON value. -/
def pySetOfJ (v : JValue) : Except PyError (List JValue) :=
  match jIterate v with
  | none => .error (.typeError "object is not iterable")
  | some xs =>
      if xs.all jHashable then
        .ok (xs.foldl (fun acc x => if acc.any (jEqScalar x) then acc else acc ++ [x]) [])
      else .error (.typeError "unhashable type")

/-- The two fields `_load_cache` assigns, as raw decoded values. -/
structure RawManagerState where
  aspect_ratio_bucket_indices : JValue
  instance_images_path : List JValue

/-- Embeds `_load_cache` (bucket.py lines 67-88).  Returns `none` when the cache
file does not exist (the fields are left untouched); otherwise the assigned
fields plus a flag recording whether the recovery warning was logged.  The
read and the `json.loads` call sit inside `try:  except Exception`, which
replaces a failing decode by the empty dict; the subsequent `.get` accesses
and the `set(...)` call run outside the `try`. -/
def _load_cache (cb : CacheBytes) : Except PyError (Option (RawManagerState × Bool)) :=
  match cb with
  | .absent => .ok none
  | .unreadable | .undecodable => do
      let idx ← pyDictGet (.obj []) "aspect_ratio_bucket_indices" (.obj [])
      let imgsRaw ← pyDictGet (.obj []) "instance_images_path" (.arr [])
      let imgs ← pySetOfJ imgsRaw
      .ok (some (⟨idx, imgs⟩, true))
  | .decoded v => do
      let idx ← pyDictGet v "aspect_ratio_bucket_indices" (.obj [])
      let imgsRaw ← pyDictGet v "instance_images_path" (.arr [])
      let imgs ← pySetOfJ imgsRaw
      .ok (some (⟨idx, imgs⟩, false))

/-- Embeds `BucketManager.__init__` (bucket.py lines 17-37) as far as the cache is
concerned: both fields start empty, then `_load_cache` runs; an exception
escaping `_load_cache` escapes the constructor. -/
def managerInit (cb : CacheBytes) : Except PyError RawManagerState :=
  match _load_cache cb with
  | .ok none => .ok ⟨.obj [], []⟩
  | .ok (some (s, _)) => .ok s
  | .error e => .error e

theorem lookupB_cons (k0 : String) (v0 : List String) (rest : BucketIndex) (k : String) :
    lookupB ((k0, v0) :: rest) k = if k0 = k then some v0 else lookupB rest k := rfl

theorem updateValue_cons (k0 : String) (v0 : List String) (rest : BucketIndex)
    (k : String) (v : List String) :
    updateValue ((k0, v0) :: rest) k v =
      if k0 = k then (k, v) :: rest else (k0, v0) :: updateValue rest k v := rfl

theorem lookupB_mem {idx : BucketIndex} {k : String} {w : List String}
    (h : lookupB idx k = some w) : (k, w) ∈ idx := by
  induction idx with
  | nil => simp [lookupB] at h
  | cons e rest ih =>
    obtain ⟨k0, v0⟩ := e
    rw [lookupB_cons] at h
    by_cases hk : k0 = k
    · rw [if_pos hk, Option.some.injEq] at h
      exact List.mem_cons.mpr (Or.inl (by rw [hk, h]))
    · rw [if_neg hk] at h
      exact List.mem_cons_of_mem _ (ih h)

theorem lookupB_none_iff {idx : BucketIndex} {k : String} :
    lookupB idx k = none ↔ k ∉ idx.map Prod.fst := by
  induction idx with
  | nil => simp [lookupB]
  | cons e rest ih =>
    obtain ⟨k0, v0⟩ := e
    rw [lookupB_cons]
    by_cases hk : k0 = k
    · rw [if_pos hk]
      simp [hk]
    · rw [if_neg hk]
      simp only [List.map_cons, List.mem_cons]
      rw [ih]
      constructor
      · intro h hmem
        rcases hmem with h' | h'
        · exact hk h'.symm
        · exact h h'
      · intro h h'
        exact h (Or.inr h')

theorem updateValue_keys (idx : BucketIndex) (k : String) (v : List String) :
    (updateValue idx k v).map Prod.fst = idx.map Prod.fst := by
  induction idx with
  | nil => rfl
  | cons e rest ih =>
    obtain ⟨k0, v0⟩ := e
    rw [updateValue_cons]
    by_cases hk : k0 = k
    · rw [if_pos hk]
      simp [hk]
    · rw [if_neg hk]
      simp [ih]

theorem lookupB_updateValue_self {idx : BucketIndex} {k : String} {w : List String}
    (v : List String) (h : lookupB idx k = some w) :
    lookupB (updateValue idx k v) k = some v := by
  induction idx with
  | nil => simp [lookupB] at h
  | cons e rest ih =>
    obtain ⟨k0, v0⟩ := e
    rw [lookupB_cons] at h
    rw [updateValue_cons]
    by_cases hk : k0 = k
    · rw [if_pos hk, lookupB_cons, if_pos rfl]
    · rw [if_neg hk] at h
      rw [if_neg hk, lookupB_cons, if_neg hk]
      exact ih h

theorem lookupB_updateValue_ne (idx : BucketIndex) (k : String) (v : List String)
    {b : String} (hb : b ≠ k) :
    lookupB (updateValue idx k v) b = lookupB idx b := by
  induction idx with
  | nil => rfl
  | cons e rest ih =>
    obtain ⟨k0, v0⟩ := e
    rw [updateValue_cons]
    by_cases hk : k0 = k
    · rw [if_pos hk, lookupB_cons, lookupB_cons, if_neg (fun h => hb h.symm),
        if_neg (fun h => hb (hk ▸ h).symm)]
    · rw [if_neg hk, lookupB_cons, lookupB_cons]
      by_cases hb0 : k0 = b
      · rw [if_pos hb0, if_pos hb0]
      · rw [if_neg hb0, if_neg hb0, ih]

theorem mem_updateValue {idx : BucketIndex} {k : String} {v : List String}
    {e' : String × List String} (h : e' ∈ updateValue idx k v) :
    e' ∈ idx ∨ e' = (k, v) := by
  induction idx with
  | nil => simp [updateValue] at h
  | cons e rest ih =>
    obtain ⟨k0, v0⟩ := e
    rw [updateValue_cons] at h
    by_cases hk : k0 = k
    · rw [if_pos hk] at h
      rcases List.mem_cons.mp h with h' | h'
      · exact Or.inr h'
      · exact Or.inl (List.mem_cons_of_mem _ h')
    · rw [if_neg hk] at h
      rcases List.mem_cons.mp h with h' | h'
      · exact Or.inl (h' ▸ List.mem_cons_self _ _)
      · rcases ih h' with h'' | h''
        · exact Or.inl (List.mem_cons_of_mem _ h'')
        · exact Or.inr h''

theorem lookupB_append_of_none {idx : BucketIndex} {k : String}
    (h : lookupB idx k = none) (v : List String) :
    lookupB (idx ++ [(k, v)]) k = some v := by
  induction idx with
  | nil => simp [lookupB]
  | cons e rest ih =>
    obtain ⟨k0, v0⟩ := e
    rw [lookupB_cons] at h
    by_cases hk : k0 = k
    · rw [if_pos hk] at h; exact absurd h (by simp)
    · rw [if_neg hk] at h
      rw [List.cons_append, lookupB_cons, if_neg hk]
      exact ih h

theorem lookupB_append_ne (idx : BucketIndex) (k : String) (v : List String)
    {b : String} (hb : b ≠ k) :
    lookupB (idx ++ [(k, v)]) b = lookupB idx b := by
  induction idx with
  | nil =>
    show (if k = b then some v else none) = none
    rw [if_neg (fun h => hb h.symm)]
  | cons e rest ih =>
    obtain ⟨k0, v0⟩ := e
    rw [List.cons_append, lookupB_cons, lookupB_cons]
    by_cases hb0 : k0 = b
    · rw [if_pos hb0, if_pos hb0]
    · rw [if_neg hb0, if_neg hb0, ih]

theorem mem_setUpdate {p : String} : ∀ {xs s : List String},
    p ∈ setUpdate s xs ↔ p ∈ s ∨ p ∈ xs := by
  intro xs
  induction xs with
  | nil => intro s; simp [setUpdate]
  | cons x xs ih =>
    intro s
    have hstep : setUpdate s (x :: xs) = setUpdate (if x ∈ s then s else s ++ [x]) xs := rfl
    rw [hstep, ih]
    by_cases hx : x ∈ s
    · simp only [if_pos hx, List.mem_cons]
      constructor
      · rintro (h | h)
        · exact Or.inl h
        · exact Or.inr (Or.inr h)
      · rintro (h | h | h)
        · exact Or.inl h
        · exact Or.inl (h ▸ hx)
        · exact Or.inr h
    · simp only [if_neg hx, List.mem_append, List.mem_singleton, List.mem_cons]
      tauto

theorem mem_foldl_setUpdate {p : String} : ∀ {xss : List (List String)} {acc : List String},
    p ∈ xss.foldl setUpdate acc ↔ p ∈ acc ∨ ∃ xs ∈ xss, p ∈ xs := by
  intro xss
  induction xss with
  | nil => intro acc; simp
  | cons xs xss ih =>
    intro acc
    rw [List.foldl_cons, ih, mem_setUpdate]
    constructor
    · rintro ((h | h) | ⟨ys, hys, hp⟩)
      · exact Or.inl h
      · exact Or.inr ⟨xs, List.mem_cons_self _ _, h⟩
      · exact Or.inr ⟨ys, List.mem_cons_of_mem _ hys, hp⟩
    · rintro (h | ⟨ys, hys, hp⟩)
      · exact Or.inl (Or.inl h)
      · rcases List.mem_cons.mp hys with h' | h'
        · exact Or.inl (Or.inr (h' ▸ hp))
        · exact Or.inr ⟨ys, h', hp⟩

theorem mem_pySetUnionStar {p : String} {xss : List (List String)} :
    p ∈ pySetUnionStar xss ↔ ∃ xs ∈ xss, p ∈ xs := by
  unfold pySetUnionStar
  rw [mem_foldl_setUpdate]
  simp

theorem entriesDisjoint_of_not_shared {e1 e2 : String × List String}
    (h : ∀ p ∈ e1.2, p ∉ e2.2) : entriesDisjoint e1 e2 := h

theorem noCrossDup_cons {e : String × List String} {rest : BucketIndex} :
    NoCrossDup (e :: rest) ↔ (∀ e' ∈ rest, entriesDisjoint e e') ∧ NoCrossDup rest :=
  List.pairwise_cons

/-- Replacing one bucket value by a subset of itself preserves pairwise
disjointness. -/
theorem noCrossDup_updateValue_shrink {idx : BucketIndex} {k : String}
    {w v : List String} (hpw : NoCrossDup idx) (hl : lookupB idx k = some w)
    (hsub : ∀ p ∈ v, p ∈ w) : NoCrossDup (updateValue idx k v) := by
  induction idx with
  | nil => exact List.Pairwise.nil
  | cons e rest ih =>
    obtain ⟨k0, v0⟩ := e
    rw [lookupB_cons] at hl
    rw [updateValue_cons]
    obtain ⟨hhead, hrest⟩ := noCrossDup_cons.mp hpw
    by_cases hk : k0 = k
    · rw [if_pos hk]
      rw [if_pos hk, Option.some.injEq] at hl
      refine noCrossDup_cons.mpr ⟨?_, hrest⟩
      intro e' he' p hp
      exact hhead e' he' p (hl ▸ hsub p hp)
    · rw [if_neg hk]
      rw [if_neg hk] at hl
      refine noCrossDup_cons.mpr ⟨?_, ih hrest hl⟩
      intro e' he' p hp
      rcases mem_updateValue he' with h' | h'
      · exact hhead e' h' p hp
      · subst h'
        intro hpv
        exact hhead (k, w) (lookupB_mem hl) p hp (hsub p hpv)

/-- Extending one bucket value with images that sit in no other bucket
preserves pairwise disjointness. -/
theorem noCrossDup_updateValue_extend {idx : BucketIndex} {k : String}
    {w v : List String} (hkeys : NodupKeys idx) (hpw : NoCrossDup idx)
    (hl : lookupB idx k = some w)
    (hfresh : ∀ p ∈ v, ∀ e ∈ idx, e.1 ≠ k → p ∉ e.2) :
    NoCrossDup (updateValue idx k (w ++ v)) := by
  induction idx with
  | nil => exact List.Pairwise.nil
  | cons e rest ih =>
    obtain ⟨k0, v0⟩ := e
    rw [lookupB_cons] at hl
    rw [updateValue_cons]
    obtain ⟨hhead, hrest⟩ := noCrossDup_cons.mp hpw
    have hknodup : k0 ∉ rest.map Prod.fst ∧ NodupKeys rest := by
      have := hkeys
      simp only [NodupKeys, List.map_cons, List.nodup_cons] at this
      exact ⟨this.1, this.2⟩
    by_cases hk : k0 = k
    · rw [if_pos hk]
      rw [if_pos hk, Option.some.injEq] at hl
      refine noCrossDup_cons.mpr ⟨?_, hrest⟩
      intro e' he' p hp
      rcases List.mem_append.mp hp with hpw' | hpv
      · exact hhead e' he' p (hl ▸ hpw')
      · refine hfresh p hpv e' (List.mem_cons_of_mem _ he') ?_
        intro hek
        have : e'.1 ∈ rest.map Prod.fst := List.mem_map.mpr ⟨e', he', rfl⟩
        rw [hek, ← hk] at this
        exact hknodup.1 this
    · rw [if_neg hk]
      rw [if_neg hk] at hl
      refine noCrossDup_cons.mpr ⟨?_, ih hknodup.2 hrest hl ?_⟩
      · intro e' he' p hp
        rcases mem_updateValue he' with h' | h'
        · exact hhead e' h' p hp
        · subst h'
          intro hpv
          rcases List.mem_append.mp hpv with hpw' | hpv'
          · exact hhead (k, w) (lookupB_mem hl) p hp hpw'
          · exact hfresh p hpv' (k0, v0) (List.mem_cons_self _ _) hk hp
      · intro p hp e' he' hek
        exact hfresh p hp e' (List.mem_cons_of_mem _ he') hek

/-- Appending a new bucket whose images sit in no other bucket preserves
pairwise disjointness. -/
theorem noCrossDup_append_entry {idx : BucketIndex} {k : String} {v : List String}
    (hpw : NoCrossDup idx) (hl : lookupB idx k = none)
    (hfresh : ∀ p ∈ v, ∀ e ∈ idx, e.1 ≠ k → p ∉ e.2) :
    NoCrossDup (idx ++ [(k, v)]) := by
  have hknot : k ∉ idx.map Prod.fst := lookupB_none_iff.mp hl
  refine List.pairwise_append.mpr ⟨hpw, List.pairwise_singleton _ _, ?_⟩
  intro e he e' he'
  rw [List.mem_singleton] at he'
  subst he'
  intro p hp hpv
  have hek : e.1 ≠ k := by
    intro h
    exact hknot (h ▸ List.mem_map.mpr ⟨e, he, rfl⟩)
  exact hfresh p hpv e he hek hp

theorem noCrossDup_setdefaultExtend {idx : BucketIndex} {k : String} {v : List String}
    (hkeys : NodupKeys idx) (hpw : NoCrossDup idx)
    (hfresh : ∀ p ∈ v, ∀ e ∈ idx, e.1 ≠ k → p ∉ e.2) :
    NoCrossDup (setdefaultExtend idx k v) := by
  unfold setdefaultExtend
  cases h : lookupB idx k with
  | some w => exact noCrossDup_updateValue_extend hkeys hpw h hfresh
  | none => exact noCrossDup_append_entry hpw h hfresh

theorem nodupKeys_updateValue {idx : BucketIndex} (k : String) (v : List String)
    (h : NodupKeys idx) : NodupKeys (updateValue idx k v) := by
  unfold NodupKeys
  rw [updateValue_keys]
  exact h

theorem nodupKeys_append_entry {idx : BucketIndex} {k : String} (v : List String)
    (h : NodupKeys idx) (hl : lookupB idx k = none) :
    NodupKeys (idx ++ [(k, v)]) := by
  unfold NodupKeys
  rw [List.map_append]
  refine List.Nodup.append h (List.nodup_singleton _) ?_
  intro x hx hx'
  rw [List.map_singleton, List.mem_singleton] at hx'
  subst hx'
  exact lookupB_none_iff.mp hl hx

theorem nodupKeys_setdefaultExtend {idx : BucketIndex} (k : String) (v : List String)
    (h : NodupKeys idx) : NodupKeys (setdefaultExtend idx k v) := by
  unfold setdefaultExtend
  cases hl : lookupB idx k with
  | some w => exact nodupKeys_updateValue k (w ++ v) h
  | none => exact nodupKeys_append_entry v h hl

/-- Every occupant of the index after a `setdefault`-extend either occupied
an entry of the same key before, or arrived with the extension under its
key. -/
theorem mem_entry_setdefaultExtend {idx : BucketIndex} {k : String} {v : List String}
    {e' : String × List String} (he' : e' ∈ setdefaultExtend idx k v)
    {p : String} (hp : p ∈ e'.2) :
    (∃ e ∈ idx, e.1 = e'.1 ∧ p ∈ e.2) ∨ (e'.1 = k ∧ p ∈ v) := by
  unfold setdefaultExtend at he'
  cases hl : lookupB idx k with
  | none =>
    rw [hl] at he'
    rcases List.mem_append.mp he' with h | h
    · exact Or.inl ⟨e', h, rfl, hp⟩
    · rw [List.mem_singleton] at h
      subst h
      exact Or.inr ⟨rfl, hp⟩
  | some w =>
    rw [hl] at he'
    rcases mem_updateValue he' with h | h
    · exact Or.inl ⟨e', h, rfl, hp⟩
    · subst h
      rcases List.mem_append.mp hp with h' | h'
      · exact Or.inl ⟨(k, w), lookupB_mem hl, rfl, h'⟩
      · exact Or.inr ⟨rfl, h'⟩

/-- After erasing the unique occurrence of `p` from its bucket, `p` occupies
no bucket at all. -/
theorem fresh_after_erase {idx : BucketIndex} {b : String} {imgs : List String}
    {p : String} (hkeys : NodupKeys idx) (hpw : NoCrossDup idx)
    (hl : lookupB idx b = some imgs) (hc : imgs.count p = 1) :
    ∀ e ∈ updateValue idx b (imgs.erase p), p ∉ e.2 := by
  have hpmem : p ∈ imgs := by
    by_contra h
    rw [List.count_eq_zero_of_not_mem h] at hc
    exact absurd hc (by simp)
  induction idx with
  | nil => intro e he; simp [updateValue] at he
  | cons e0 rest ih =>
    obtain ⟨k0, v0⟩ := e0
    rw [lookupB_cons] at hl
    rw [updateValue_cons]
    obtain ⟨hhead, hrest⟩ := noCrossDup_cons.mp hpw
    have hknodup : k0 ∉ rest.map Prod.fst ∧ NodupKeys rest := by
      have := hkeys
      simp only [NodupKeys, List.map_cons, List.nodup_cons] at this
      exact ⟨this.1, this.2⟩
    by_cases hk : k0 = b
    · rw [if_pos hk]
      rw [if_pos hk, Option.some.injEq] at hl
      intro e he
      rcases List.mem_cons.mp he with h | h
      · subst h
        intro hpe
        have := List.count_erase_self p imgs
        rw [hc] at this
        have hz : (imgs.erase p).count p = 0 := this
        exact absurd (List.count_pos_iff.mpr hpe) (by rw [hz]; exact Nat.lt_irrefl 0)
      · exact hhead e h p (hl ▸ hpmem)
    · rw [if_neg hk]
      rw [if_neg hk] at hl
      intro e he
      rcases List.mem_cons.mp he with h | h
      · subst h
        intro hpe
        exact hhead (b, imgs) (lookupB_mem hl) p hpe hpmem
      · exact ih hknodup.2 hrest hl e h

/-- Every image a worker buckets is assigned to exactly that bucket key and
was absent from the pre-existing set (the worker skips existing files). -/
theorem worker_local_entries_aux (assign : String → Option String)
    (existing : List String) :
    ∀ (fs : List String) (acc : BucketIndex),
      (∀ e ∈ acc, ∀ p ∈ e.2, assign p = some e.1 ∧ p ∉ existing) →
      ∀ e ∈ fs.foldl
          (fun acc file =>
            if file ∈ existing then acc else process_for_bucket assign file acc) acc,
        ∀ p ∈ e.2, assign p = some e.1 ∧ p ∉ existing := by
  intro fs
  induction fs with
  | nil => intro acc hacc; simpa using hacc
  | cons f fs ih =>
    intro acc hacc
    rw [List.foldl_cons]
    apply ih
    by_cases hf : f ∈ existing
    · rw [if_pos hf]; exact hacc
    · rw [if_neg hf]
      unfold process_for_bucket
      cases ha : assign f with
      | none => exact hacc
      | some key =>
        intro e he p hp
        rcases mem_entry_setdefaultExtend he hp with ⟨e0, he0, hkey, hp0⟩ | ⟨hkey, hp0⟩
        · obtain ⟨h1, h2⟩ := hacc e0 he0 p hp0
          exact ⟨by rw [h1, hkey], h2⟩
        · rw [List.mem_singleton] at hp0
          subst hp0
          exact ⟨by rw [ha, hkey], hf⟩

theorem worker_local_entries (assign : String → Option String)
    (existing : List String) (files : List String) :
    ∀ e ∈ _bucket_worker assign existing files, ∀ p ∈ e.2,
      assign p = some e.1 ∧ p ∉ existing := by
  unfold _bucket_worker
  exact worker_local_entries_aux assign existing files []
    (by intro e he; simp at he)

/-- Merging one worker-local index preserves key uniqueness, pairwise
disjointness, and the occupancy discipline (every occupant is either an
original, pre-existing image or a fresh image assigned to its key). -/
theorem goodIdx_mergeLocalIndex (assign : String → Option String) (ex : List String) :
    ∀ (pidx : BucketIndex) (idx : BucketIndex),
      NodupKeys idx → NoCrossDup idx →
      (∀ e ∈ idx, ∀ p ∈ e.2, p ∈ ex ∨ assign p = some e.1) →
      (∀ e ∈ pidx, ∀ p ∈ e.2, assign p = some e.1 ∧ p ∉ ex) →
      NodupKeys (mergeLocalIndex idx pidx) ∧ NoCrossDup (mergeLocalIndex idx pidx) ∧
        (∀ e ∈ mergeLocalIndex idx pidx, ∀ p ∈ e.2, p ∈ ex ∨ assign p = some e.1) := by
  intro pidx
  induction pidx with
  | nil => intro idx h1 h2 h3 _; exact ⟨h1, h2, h3⟩
  | cons pe pidx ih =>
    intro idx h1 h2 h3 h4
    have hstep : mergeLocalIndex idx (pe :: pidx) =
        mergeLocalIndex (setdefaultExtend idx pe.1 pe.2) pidx := rfl
    rw [hstep]
    have hpe : ∀ p ∈ pe.2, assign p = some pe.1 ∧ p ∉ ex :=
      h4 pe (List.mem_cons_self _ _)
    have hfresh : ∀ p ∈ pe.2, ∀ e ∈ idx, e.1 ≠ pe.1 → p ∉ e.2 := by
      intro p hp e he hne hpe2
      rcases h3 e he p hpe2 with hex | hasgn
      · exact (hpe p hp).2 hex
      · apply hne
        have h5 := (hpe p hp).1
        rw [hasgn] at h5
        exact (Option.some.injEq _ _).mp h5
    have hocc' : ∀ e ∈ setdefaultExtend idx pe.1 pe.2, ∀ p ∈ e.2,
        p ∈ ex ∨ assign p = some e.1 := by
      intro e he p hp
      rcases mem_entry_setdefaultExtend he hp with ⟨e0, he0, hkey, hp0⟩ | ⟨hkey, hp0⟩
      · rcases h3 e0 he0 p hp0 with hex | ha
        · exact Or.inl hex
        · exact Or.inr (by rw [ha, hkey])
      · exact Or.inr (by rw [(hpe p hp0).1, hkey])
    exact ih _ (nodupKeys_setdefaultExtend _ _ h1)
      (noCrossDup_setdefaultExtend h1 h2 hfresh) hocc'
      (fun e he => h4 e (List.mem_cons_of_mem _ he))

/-- Folding all worker-local indices into the index preserves key
uniqueness and pairwise disjointness. -/
theorem goodIdx_foldl_mergeLocalIndex (assign : String → Option String) (ex : List String) :
    ∀ (parts : List BucketIndex) (idx : BucketIndex),
      NodupKeys idx → NoCrossDup idx →
      (∀ e ∈ idx, ∀ p ∈ e.2, p ∈ ex ∨ assign p = some e.1) →
      (∀ P ∈ parts, ∀ e ∈ P, ∀ p ∈ e.2, assign p = some e.1 ∧ p ∉ ex) →
      NodupKeys (parts.foldl mergeLocalIndex idx) ∧
        NoCrossDup (parts.foldl mergeLocalIndex idx) := by
  intro parts
  induction parts with
  | nil => intro idx h1 h2 _ _; exact ⟨h1, h2⟩
  | cons P parts ih =>
    intro idx h1 h2 h3 h4
    rw [List.foldl_cons]
    obtain ⟨g1, g2, g3⟩ := goodIdx_mergeLocalIndex assign ex P idx h1 h2 h3
      (h4 P (List.mem_cons_self _ _))
    exact ih _ g1 g2 g3 (fun Q hQ => h4 Q (List.mem_cons_of_mem _ hQ))

theorem invGood_save_cache {st : BucketState} (h : InvGood st) :
    InvGood (_save_cache st).1 := by
  obtain ⟨h1, h2⟩ := h
  constructor
  · exact List.Nodup.sublist (List.Sublist.map _ (List.filter_sublist _)) h1
  · exact List.Pairwise.sublist (List.filter_sublist _) h2

theorem invGood_compute (assign : String → Option String)
    (listing : List (String × List String × List String)) {st : BucketState}
    (h : InvGood st) :
    InvGood (compute_aspect_ratio_bucket_indices assign listing st).1 := by
  unfold compute_aspect_ratio_bucket_indices
  by_cases hne : (_discover_new_files listing st).isEmpty
  · simp only [hne, if_true]
    exact h
  · simp only [hne, if_false]
    apply invGood_save_cache
    have hocc : ∀ e ∈ st.aspect_ratio_bucket_indices, ∀ p ∈ e.2,
        p ∈ pySetUnionStar (st.aspect_ratio_bucket_indices.map Prod.snd) ∨
          assign p = some e.1 := by
      intro e he p hp
      exact Or.inl (mem_pySetUnionStar.mpr ⟨e.2, List.mem_map.mpr ⟨e, he, rfl⟩, hp⟩)
    have hparts : ∀ P ∈ (array_split (_discover_new_files listing st) 8).map
        (_bucket_worker assign
          (pySetUnionStar (st.aspect_ratio_bucket_indices.map Prod.snd))),
        ∀ e ∈ P, ∀ p ∈ e.2,
          assign p = some e.1 ∧
            p ∉ pySetUnionStar (st.aspect_ratio_bucket_indices.map Prod.snd) := by
      intro P hP
      obtain ⟨shard, _, hPeq⟩ := List.mem_map.mp hP
      exact hPeq ▸ worker_local_entries assign _ shard
    exact goodIdx_foldl_mergeLocalIndex assign _ _ _ h.1 h.2 hocc hparts

theorem invGood_update (ex : List String) {st : BucketState} (hg : InvGood st) :
    InvGood (update_buckets_with_existing_files ex st).1 := by
  unfold update_buckets_with_existing_files
  apply invGood_save_cache
  constructor
  · show (List.map Prod.fst (st.aspect_ratio_bucket_indices.map
      (fun e => (e.1, e.2.filter (fun img => decide (img ∈ ex)))))).Nodup
    rw [List.map_map]
    exact hg.1
  · refine List.Pairwise.map _ ?_ hg.2
    intro e1 e2 hd p hp hp2
    exact hd p (List.mem_filter.mp hp).1 (List.mem_filter.mp hp2).1

theorem invGood_refresh (assign : String → Option String)
    (listing : List (String × List String × List String)) {st : BucketState}
    (hg : InvGood st) : InvGood (refresh_buckets assign listing st).1 := by
  unfold refresh_buckets
  exact invGood_update _ (invGood_compute assign listing hg)

theorem invGood_remove_image {p b : String} {st st' : BucketState}
    (h : remove_image p b st = .ok st') (hg : InvGood st) : InvGood st' := by
  unfold remove_image at h
  cases hl : lookupB st.aspect_ratio_bucket_indices b with
  | none => simp only [hl] at h; exact absurd h (by simp)
  | some imgs =>
    simp only [hl] at h
    by_cases hmem : p ∈ imgs
    · rw [if_pos hmem, Except.ok.injEq] at h
      subst h
      exact ⟨nodupKeys_updateValue _ _ hg.1,
        noCrossDup_updateValue_shrink hg.2 hl (fun q hq => List.mem_of_mem_erase hq)⟩
    · rw [if_neg hmem, Except.ok.injEq] at h
      subst h
      exact hg

theorem invGood_handle_small {p b : String} {d : Bool} {objs objs' : List String}
    {st st' : BucketState}
    (h : handle_small_image p b d st objs = .ok (st', objs')) (hg : InvGood st) :
    InvGood st' := by
  unfold handle_small_image at h
  cases hrem : remove_image p b st with
  | error e => rw [hrem] at h; exact absurd h (by simp [Bind.bind, Except.bind])
  | ok st'' =>
    rw [hrem] at h
    simp only [Bind.bind, Except.bind, pure, Except.pure, Except.ok.injEq,
      Prod.mk.injEq] at h
    exact h.1 ▸ invGood_remove_image hrem hg

theorem invGood_handle_incorrect {p b a : String} {imgs : List String}
    {st st' : BucketState}
    (hl : lookupB st.aspect_ratio_bucket_indices b = some imgs)
    (hc : imgs.count p = 1)
    (h : handle_incorrect_bucket p b a st = .ok st') (hg : InvGood st) :
    InvGood st' := by
  have hpmem : p ∈ imgs := by
    by_contra hno
    rw [List.count_eq_zero_of_not_mem hno] at hc
    exact absurd hc (by simp)
  have hrem : remove_image p b st =
      .ok { st with aspect_ratio_bucket_indices :=
              updateValue st.aspect_ratio_bucket_indices b (imgs.erase p) } := by
    unfold remove_image
    simp only [hl]
    rw [if_pos hpmem]
  unfold handle_incorrect_bucket at h
  rw [hrem] at h
  simp only [Bind.bind, Except.bind] at h
  have hk1 : NodupKeys (updateValue st.aspect_ratio_bucket_indices b (imgs.erase p)) :=
    nodupKeys_updateValue _ _ hg.1
  have hpw1 : NoCrossDup (updateValue st.aspect_ratio_bucket_indices b (imgs.erase p)) :=
    noCrossDup_updateValue_shrink hg.2 hl (fun q hq => List.mem_of_mem_erase hq)
  have hfr : ∀ e ∈ updateValue st.aspect_ratio_bucket_indices b (imgs.erase p),
      p ∉ e.2 := fresh_after_erase hg.1 hg.2 hl hc
  have hfrw : ∀ q ∈ [p], ∀ e ∈ updateValue st.aspect_ratio_bucket_indices b
      (imgs.erase p), e.1 ≠ a → q ∉ e.2 := by
    intro q hq e he _
    rw [List.mem_singleton] at hq
    exact hq ▸ hfr e he
  cases hla : lookupB (updateValue st.aspect_ratio_bucket_indices b (imgs.erase p)) a with
  | some v =>
    simp only [hla, pure, Except.pure, Except.ok.injEq] at h
    subst h
    refine ⟨nodupKeys_updateValue _ _ hk1, ?_⟩
    exact noCrossDup_updateValue_extend hk1 hpw1 hla hfrw
  | none =>
    simp only [hla, pure, Except.pure, Except.ok.injEq] at h
    subst h
    exact ⟨nodupKeys_append_entry _ hk1 hla, noCrossDup_append_entry hpw1 hla hfrw⟩

theorem step_preserves_invGood {s s' : BucketState} (h : Step s s')
    (hg : InvGood s) : InvGood s' := by
  cases h with
  | compute assign listing s => exact invGood_compute assign listing hg
  | refresh assign listing s => exact invGood_refresh assign listing hg
  | update existing s => exact invGood_update existing hg
  | save s => exact invGood_save_cache hg
  | removeImg p b s s' hrem => exact invGood_remove_image hrem hg
  | smallImg p b d objs objs' s s' hsm => exact invGood_handle_small hsm hg
  | moveImg p b a imgs s s' hl hc hmv => exact invGood_handle_incorrect hl hc hmv hg

theorem reachable_invGood {s0 s : BucketState} (h0 : InvGood s0)
    (hr : Relation.ReflTransGen Step s0 s) : InvGood s := by
  induction hr with
  | refl => exact h0
  | tail _ hstep ih => exact step_preserves_invGood hstep ih

theorem save_cache_images (st : BucketState) :
    (_save_cache st).1.instance_images_path = st.instance_images_path := rfl

theorem update_result_images (ex : List String) (st : BucketState) :
    (update_buckets_with_existing_files ex st).1.instance_images_path =
      st.instance_images_path := rfl

theorem update_result_indices (ex : List String) (st : BucketState) :
    (update_buckets_with_existing_files ex st).1.aspect_ratio_bucket_indices =
      (st.aspect_ratio_bucket_indices.map
        (fun e => (e.1, e.2.filter (fun img => decide (img ∈ ex))))).filter
          (fun e => decide (st.batch_size ≤ e.2.length)) := rfl

theorem discover_eq_nil {listing : List (String × List String × List String)}
    {st : BucketState}
    (h : ∀ f ∈ (listing.map (fun e => e.2.2)).flatten, f ∈ st.instance_images_path) :
    _discover_new_files listing st = [] := by
  unfold _discover_new_files
  rw [List.filter_eq_nil_iff]
  intro f hf
  simp [h f hf]

theorem compute_noop {assign : String → Option String}
    {listing : List (String × List String × List String)} {st : BucketState}
    (h : _discover_new_files listing st = []) :
    compute_aspect_ratio_bucket_indices assign listing st = (st, []) := by
  unfold compute_aspect_ratio_bucket_indices
  simp [h]

theorem compute_images_superset (assign : String → Option String)
    (listing : List (String × List String × List String)) (st : BucketState) :
    ∀ f ∈ (listing.map (fun e => e.2.2)).flatten,
      f ∈ (compute_aspect_ratio_bucket_indices assign listing st).1.instance_images_path := by
  intro f hf
  unfold compute_aspect_ratio_bucket_indices
  by_cases hne : (_discover_new_files listing st).isEmpty
  · simp only [hne, if_true]
    have hnil : _discover_new_files listing st = [] := by
      rwa [List.isEmpty_iff] at hne
    unfold _discover_new_files at hnil
    rw [List.filter_eq_nil_iff] at hnil
    have := hnil f hf
    simpa using this
  · simp only [hne, if_false]
    show f ∈ setUpdate st.instance_images_path (_discover_new_files listing st)
    rw [mem_setUpdate]
    by_cases hmem : f ∈ st.instance_images_path
    · exact Or.inl hmem
    · refine Or.inr ?_
      unfold _discover_new_files
      rw [List.mem_filter]
      exact ⟨hf, by simpa using hmem⟩

theorem update_entry_facts (ex : List String) (st : BucketState) :
    ∀ e ∈ (update_buckets_with_existing_files ex st).1.aspect_ratio_bucket_indices,
      (∀ p ∈ e.2, p ∈ ex) ∧ st.batch_size ≤ e.2.length := by
  intro e he
  rw [update_result_indices, List.mem_filter] at he
  obtain ⟨hmap, hlen⟩ := he
  constructor
  · intro p hp
    obtain ⟨e0, _, heq⟩ := List.mem_map.mp hmap
    rw [← heq] at hp
    simp only at hp
    exact of_decide_eq_true (List.mem_filter.mp hp).2
  · exact of_decide_eq_true hlen

theorem update_identity {ex : List String} {st : BucketState}
    (hsub : ∀ e ∈ st.aspect_ratio_bucket_indices, ∀ p ∈ e.2, p ∈ ex)
    (hbig : ∀ e ∈ st.aspect_ratio_bucket_indices, st.batch_size ≤ e.2.length) :
    update_buckets_with_existing_files ex st =
      (st, serializeCache st.aspect_ratio_bucket_indices st.instance_images_path) := by
  have hmap : st.aspect_ratio_bucket_indices.map
      (fun e => (e.1, e.2.filter (fun img => decide (img ∈ ex)))) =
        st.aspect_ratio_bucket_indices := by
    have hcongr : ∀ e ∈ st.aspect_ratio_bucket_indices,
        (e.1, e.2.filter (fun img => decide (img ∈ ex))) = e := by
      intro e he
      have : e.2.filter (fun img => decide (img ∈ ex)) = e.2 :=
        List.filter_eq_self.mpr (fun p hp => decide_eq_true (hsub e he p hp))
      rw [this]
    calc st.aspect_ratio_bucket_indices.map
          (fun e => (e.1, e.2.filter (fun img => decide (img ∈ ex))))
        = st.aspect_ratio_bucket_indices.map id := List.map_congr_left hcongr
      _ = st.aspect_ratio_bucket_indices := List.map_id _
  have hprune : st.aspect_ratio_bucket_indices.filter
      (fun e => decide (st.batch_size ≤ e.2.length)) = st.aspect_ratio_bucket_indices :=
    List.filter_eq_self.mpr (fun e he => decide_eq_true (hbig e he))
  have hstep1 : update_buckets_with_existing_files ex st = _save_cache st := by
    unfold update_buckets_with_existing_files
    rw [hmap]
  have hstep2 : _save_cache st =
      (st, serializeCache st.aspect_ratio_bucket_indices st.instance_images_path) := by
    unfold _save_cache _enforce_min_bucket_size
    rw [hprune]
  exact hstep1.trans hstep2

/-- C2: `handle_small_image` with `delete_unwanted_images=True` removes the
image from the bucket but never invokes the storage backend delete: the
code calls `self.data_backend.remove(...)`, a method that exists neither on
`S3DataBackend` nor in the StorageBackend contract, so the `AttributeError`
is swallowed by the bare `except` and the stored object survives.  Evaluated
at a concrete input: the bucket list loses the image while the backend still
holds the object; the second conjunct shows the attempted dispatch fails,
and the third shows the delete that the spec intends would have removed the
object. -/
theorem handle_small_image_never_invokes_delete :
    handle_small_image "img.png" "1:1" true
        ⟨[("1:1", ["img.png"])], ["img.png"], 1⟩ ["img.png"] =
      .ok (⟨[("1:1", [])], ["img.png"], 1⟩, ["img.png"]) ∧
    backendInvokeRemove ["img.png"] "img.png" = .error (.attributeError "remove") ∧
    S3DataBackend_delete ["img.png"] "img.png" = [] :=
  ⟨rfl, rfl, by decide⟩

/-- C3 counterexample: `remove_image` raises `KeyError` when the bucket key
is absent from the index, instead of being a no-op. -/
theorem remove_image_missing_bucket_raises :
    remove_image "a" "B" ⟨[("A", ["a"])], ["a"], 1⟩ = .error (.keyError "B") := rfl

/-- C3 (amended): when the bucket key is present, `remove_image` removes
exactly one occurrence of `image_path` when present (all other counts and
all other buckets unchanged) and is a no-op when the path is absent; when
the bucket key itself is absent it raises `KeyError` (see the
counterexample). -/
theorem remove_image_present_bucket_spec (st : BucketState) (path bucket : String)
    (imgs : List String)
    (hl : lookupB st.aspect_ratio_bucket_indices bucket = some imgs) :
    (path ∉ imgs → remove_image path bucket st = .ok st) ∧
    (path ∈ imgs →
      remove_image path bucket st =
        .ok { st with aspect_ratio_bucket_indices :=
                updateValue st.aspect_ratio_bucket_indices bucket (imgs.erase path) } ∧
      (imgs.erase path).count path + 1 = imgs.count path ∧
      (∀ q, q ≠ path → (imgs.erase path).count q = imgs.count q) ∧
      lookupB (updateValue st.aspect_ratio_bucket_indices bucket (imgs.erase path))
          bucket = some (imgs.erase path) ∧
      (∀ b', b' ≠ bucket →
        lookupB (updateValue st.aspect_ratio_bucket_indices bucket (imgs.erase path))
            b' = lookupB st.aspect_ratio_bucket_indices b')) := by
  constructor
  · intro hmem
    unfold remove_image
    simp only [hl]
    rw [if_neg hmem]
  · intro hmem
    refine ⟨?_, ?_, ?_, ?_, ?_⟩
    · unfold remove_image
      simp only [hl]
      rw [if_pos hmem]
    · rw [List.count_erase_self]
      exact Nat.sub_add_cancel (List.count_pos_iff.mpr hmem)
    · intro q hq
      exact List.count_erase_of_ne hq imgs
    · exact lookupB_updateValue_self _ hl
    · intro b' hb'
      exact lookupB_updateValue_ne _ _ _ hb'

theorem remove_image_present_bucket_spec_witness :
    ("x" ∉ (["y"] : List String) →
      remove_image "x" "1:1" ⟨[("1:1", ["y"]), ("2:1", ["x"])], ["x", "y"], 1⟩ =
        .ok ⟨[("1:1", ["y"]), ("2:1", ["x"])], ["x", "y"], 1⟩) ∧
    ("x" ∈ (["y"] : List String) →
      remove_image "x" "1:1" ⟨[("1:1", ["y"]), ("2:1", ["x"])], ["x", "y"], 1⟩ =
        .ok { (⟨[("1:1", ["y"]), ("2:1", ["x"])], ["x", "y"], 1⟩ : BucketState) with
                aspect_ratio_bucket_indices :=
                  updateValue [("1:1", ["y"]), ("2:1", ["x"])] "1:1"
                    (["y"].erase "x") } ∧
      ((["y"] : List String).erase "x").count "x" + 1 = (["y"] : List String).count "x" ∧
      (∀ q, q ≠ "x" →
        ((["y"] : List String).erase "x").count q = (["y"] : List String).count q) ∧
      lookupB (updateValue [("1:1", ["y"]), ("2:1", ["x"])] "1:1" (["y"].erase "x"))
          "1:1" = some (["y"].erase "x") ∧
      (∀ b', b' ≠ "1:1" →
        lookupB (updateValue [("1:1", ["y"]), ("2:1", ["x"])] "1:1" (["y"].erase "x"))
            b' = lookupB [("1:1", ["y"]), ("2:1", ["x"])] b')) :=
  remove_image_present_bucket_spec ⟨[("1:1", ["y"]), ("2:1", ["x"])], ["x", "y"], 1⟩
    "x" "1:1" ["y"] rfl

/-- C4: `_save_cache` keeps exactly the buckets whose count reaches
`batch_size`, the persisted document is built from the pruned index, and the
discovered set is untouched, so previously discovered entries of dropped
buckets remain discovered. -/
theorem save_cache_min_bucket_pruning (st : BucketState) (b : String)
    (imgs : List String) (p : String) (hp : p ∈ st.instance_images_path) :
    ((b, imgs) ∈ (_save_cache st).1.aspect_ratio_bucket_indices ↔
      (b, imgs) ∈ st.aspect_ratio_bucket_indices ∧ st.batch_size ≤ imgs.length) ∧
    (_save_cache st).2 =
      serializeCache (_save_cache st).1.aspect_ratio_bucket_indices
        st.instance_images_path ∧
    (_save_cache st).1.instance_images_path = st.instance_images_path ∧
    p ∈ (_save_cache st).1.instance_images_path := by
  refine ⟨?_, rfl, rfl, hp⟩
  show (b, imgs) ∈ st.aspect_ratio_bucket_indices.filter
      (fun e => decide (st.batch_size ≤ e.2.length)) ↔ _
  rw [List.mem_filter]
  simp

theorem save_cache_min_bucket_pruning_witness :
    (("16:9", ["c"]) ∈
        (_save_cache ⟨[("1:1", ["a", "b"]), ("16:9", ["c"])], ["a", "b", "c"], 2⟩).1.aspect_ratio_bucket_indices ↔
      ("16:9", ["c"]) ∈ ([("1:1", ["a", "b"]), ("16:9", ["c"])] : BucketIndex) ∧
        2 ≤ 1) ∧
    (_save_cache (⟨[("1:1", ["a", "b"]), ("16:9", ["c"])], ["a", "b", "c"], 2⟩ : BucketState)).2 =
      serializeCache
        (_save_cache (⟨[("1:1", ["a", "b"]), ("16:9", ["c"])], ["a", "b", "c"], 2⟩ : BucketState)).1.aspect_ratio_bucket_indices
        ["a", "b", "c"] ∧
    (_save_cache (⟨[("1:1", ["a", "b"]), ("16:9", ["c"])], ["a", "b", "c"], 2⟩ : BucketState)).1.instance_images_path =
      ["a", "b", "c"] ∧
    "c" ∈ (_save_cache (⟨[("1:1", ["a", "b"]), ("16:9", ["c"])], ["a", "b", "c"], 2⟩ : BucketState)).1.instance_images_path :=
  save_cache_min_bucket_pruning ⟨[("1:1", ["a", "b"]), ("16:9", ["c"])], ["a", "b", "c"], 2⟩
    "16:9" ["c"] "c" (by decide)

/-- C6 counterexample: with `batch_size = 2`, index `{"1:1": ["a", "b"]}`
and `existing_files = {"a"}`, the image `"a"` is in the existing set and was
in a bucket before the call, yet after
`update_buckets_with_existing_files` (whose embedded save prunes the
now-too-small bucket) the index is empty and `"a"` is retrievable from no
bucket. -/
theorem update_buckets_prunes_surviving_ref :
    ("1:1", ["a", "b"]) ∈ ([("1:1", ["a", "b"])] : BucketIndex) ∧
    "a" ∈ (["a"] : List String) ∧
    (update_buckets_with_existing_files ["a"]
        ⟨[("1:1", ["a", "b"])], ["a", "b"], 2⟩).1.aspect_ratio_bucket_indices = [] :=
  ⟨by decide, by decide, rfl⟩

/-- C6 (amended): after `update_buckets_with_existing_files`, every image not
in the existing set is gone from every bucket; an image in the existing set
that was in bucket `b` before is still retrievable from `b` provided the
filtered bucket still reaches `batch_size` (otherwise the embedded save
drops the whole bucket, as the counterexample shows). -/
theorem update_buckets_stale_removal (existing : List String) (st : BucketState)
    (p b : String) (imgs : List String)
    (hb : (b, imgs) ∈ st.aspect_ratio_bucket_indices) (hp : p ∈ imgs) :
    (p ∉ existing →
      ∀ e ∈ (update_buckets_with_existing_files existing st).1.aspect_ratio_bucket_indices,
        p ∉ e.2) ∧
    (p ∈ existing →
      st.batch_size ≤ (imgs.filter (fun img => decide (img ∈ existing))).length →
      (b, imgs.filter (fun img => decide (img ∈ existing))) ∈
          (update_buckets_with_existing_files existing st).1.aspect_ratio_bucket_indices ∧
        p ∈ imgs.filter (fun img => decide (img ∈ existing))) := by
  constructor
  · intro hout e he hpe
    rw [update_result_indices, List.mem_filter] at he
    obtain ⟨e0, _, heq⟩ := List.mem_map.mp he.1
    rw [← heq] at hpe
    simp only at hpe
    exact hout (of_decide_eq_true (List.mem_filter.mp hpe).2)
  · intro hin hlen
    constructor
    · rw [update_result_indices, List.mem_filter]
      refine ⟨List.mem_map.mpr ⟨(b, imgs), hb, rfl⟩, by simpa using hlen⟩
    · exact List.mem_filter.mpr ⟨hp, decide_eq_true hin⟩

theorem update_buckets_stale_removal_witness :
    (("b" : String) ∉ (["a", "c"] : List String) →
      ∀ e ∈ (update_buckets_with_existing_files ["a", "c"]
          ⟨[("1:1", ["a", "b", "c"])], ["a", "b", "c"], 2⟩).1.aspect_ratio_bucket_indices,
        "b" ∉ e.2) ∧
    (("b" : String) ∈ (["a", "c"] : List String) →
      2 ≤ ((["a", "b", "c"] : List String).filter
        (fun img => decide (img ∈ (["a", "c"] : List String)))).length →
      ("1:1", (["a", "b", "c"] : List String).filter
          (fun img => decide (img ∈ (["a", "c"] : List String)))) ∈
        (update_buckets_with_existing_files ["a", "c"]
          ⟨[("1:1", ["a", "b", "c"])], ["a", "b", "c"], 2⟩).1.aspect_ratio_bucket_indices ∧
      "b" ∈ (["a", "b", "c"] : List String).filter
        (fun img => decide (img ∈ (["a", "c"] : List String)))) :=
  update_buckets_stale_removal ["a", "c"] ⟨[("1:1", ["a", "b", "c"])], ["a", "b", "c"], 2⟩
    "b" "1:1" ["a", "b", "c"] (by decide) (by decide)

/-- C7 counterexample: a cache file whose bytes decode successfully but to a
non-object JSON document (for example the two bytes of an empty JSON array)
makes `_load_cache`, and hence manager construction, raise an
`AttributeError` at the `.get` access, which sits outside the
`try`-`except`. -/
theorem load_cache_nonobject_raises :
    managerInit (.decoded (.arr [])) = .error (.attributeError "get") := rfl

/-- C7 (amended): construction leaves both structures empty when the cache
file is absent, and when the cache bytes cannot be read or JSON-decoded,
`_load_cache` logs the recovery warning and resets both structures to empty
instead of raising; however a cache that decodes to a non-object document
does raise (see the counterexample). -/
theorem load_cache_recovery :
    managerInit .absent = .ok ⟨.obj [], []⟩ ∧
    _load_cache .unreadable = .ok (some (⟨.obj [], []⟩, true)) ∧
    _load_cache .undecodable = .ok (some (⟨.obj [], []⟩, true)) ∧
    managerInit .unreadable = .ok ⟨.obj [], []⟩ ∧
    managerInit .undecodable = .ok ⟨.obj [], []⟩ :=
  ⟨rfl, rfl, rfl, rfl, rfl⟩

/-- C8: when discovery returns no new files,
`compute_aspect_ratio_bucket_indices` returns with the state unchanged and
writes nothing to the backend. -/
theorem compute_no_new_files_is_noop (assign : String → Option String)
    (listing : List (String × List String × List String)) (st : BucketState)
    (h : _discover_new_files listing st = []) :
    compute_aspect_ratio_bucket_indices assign listing st = (st, []) :=
  compute_noop h

theorem compute_no_new_files_is_noop_witness :
    _discover_new_files [("root", [], ["a.png"])]
        ⟨[("1:1", ["a.png"])], ["a.png"], 1⟩ = [] ∧
    compute_aspect_ratio_bucket_indices (fun _ => some "1:1")
        [("root", [], ["a.png"])] ⟨[("1:1", ["a.png"])], ["a.png"], 1⟩ =
      (⟨[("1:1", ["a.png"])], ["a.png"], 1⟩, []) :=
  ⟨rfl, compute_no_new_files_is_noop (fun _ => some "1:1") [("root", [], ["a.png"])]
    ⟨[("1:1", ["a.png"])], ["a.png"], 1⟩ rfl⟩

/-- C1 counterexample: with an entirely empty bucket index and one newly
discovered file, the existing-file union evaluates to the empty set (Python
`set().union()` with an empty argument pack has no failure mode) and
`compute_aspect_ratio_bucket_indices` silently proceeds with that empty
existing set, bucketing the file and saving — it does not fail loudly. -/
theorem compute_empty_index_counterexample :
    pySetUnionStar (List.map Prod.snd ([] : BucketIndex)) = [] ∧
    compute_aspect_ratio_bucket_indices (fun _ => some "1:1")
        [("root", [], ["a.png"])] ⟨[], [], 1⟩ =
      (⟨[("1:1", ["a.png"])], ["a.png"], 1⟩,
        [serializeCache [("1:1", ["a.png"])] ["a.png"]]) :=
  ⟨rfl, rfl⟩

/-- C1 (amended): when the bucket index is entirely empty and discovery is
non-empty, the union over the empty index is the empty set and the
computation proceeds normally with that empty existing set — there is no
error to guard against. -/
theorem compute_empty_index_proceeds (assign : String → Option String)
    (listing : List (String × List String × List String)) (st : BucketState)
    (hidx : st.aspect_ratio_bucket_indices = [])
    (hnew : _discover_new_files listing st ≠ []) :
    pySetUnionStar (st.aspect_ratio_bucket_indices.map Prod.snd) = [] ∧
    compute_aspect_ratio_bucket_indices assign listing st =
      (fun r => (r.1, [r.2]))
        (_save_cache { st with
          aspect_ratio_bucket_indices :=
            ((array_split (_discover_new_files listing st) 8).map
              (_bucket_worker assign [])).foldl mergeLocalIndex [],
          instance_images_path :=
            setUpdate st.instance_images_path (_discover_new_files listing st) }) := by
  have hunion : pySetUnionStar (st.aspect_ratio_bucket_indices.map Prod.snd) = [] := by
    rw [hidx]
    rfl
  refine ⟨hunion, ?_⟩
  have hcond : ¬((_discover_new_files listing st).isEmpty = true) := by
    rw [List.isEmpty_iff]
    exact hnew
  simp only [compute_aspect_ratio_bucket_indices]
  rw [if_neg hcond, hunion, hidx]

theorem compute_empty_index_proceeds_witness :
    pySetUnionStar ((⟨[], ["old"], 1⟩ : BucketState).aspect_ratio_bucket_indices.map
      Prod.snd) = [] ∧
    compute_aspect_ratio_bucket_indices (fun _ => some "B")
        [("root", [], ["b.png"])] ⟨[], ["old"], 1⟩ =
      (fun r => (r.1, [r.2]))
        (_save_cache { (⟨[], ["old"], 1⟩ : BucketState) with
          aspect_ratio_bucket_indices :=
            ((array_split (_discover_new_files [("root", [], ["b.png"])]
                ⟨[], ["old"], 1⟩) 8).map
              (_bucket_worker (fun _ => some "B") [])).foldl mergeLocalIndex [],
          instance_images_path :=
            setUpdate ["old"] (_discover_new_files [("root", [], ["b.png"])]
              ⟨[], ["old"], 1⟩) }) :=
  compute_empty_index_proceeds (fun _ => some "B") [("root", [], ["b.png"])]
    ⟨[], ["old"], 1⟩ rfl (by decide)

/-- C5: when the source bucket key exists and differs from the target,
`handle_incorrect_bucket` removes the image from the source bucket, appends
it to the target bucket (creating the target when absent), leaves every
other bucket and the discovered set unchanged; at the spec scenario input
it yields exactly the claimed index. -/
theorem handle_incorrect_bucket_moves (st : BucketState)
    (image_path bucket actual_bucket : String) (imgs : List String)
    (hl : lookupB st.aspect_ratio_bucket_indices bucket = some imgs)
    (hne : actual_bucket ≠ bucket) :
    ∃ st', handle_incorrect_bucket image_path bucket actual_bucket st = .ok st' ∧
      lookupB st'.aspect_ratio_bucket_indices bucket = some (imgs.erase image_path) ∧
      lookupB st'.aspect_ratio_bucket_indices actual_bucket =
        some ((lookupB st.aspect_ratio_bucket_indices actual_bucket).getD [] ++
          [image_path]) ∧
      (∀ b', b' ≠ bucket → b' ≠ actual_bucket →
        lookupB st'.aspect_ratio_bucket_indices b' =
          lookupB st.aspect_ratio_bucket_indices b') ∧
      st'.instance_images_path = st.instance_images_path := by
  by_cases hmem : image_path ∈ imgs
  · have hrem : remove_image image_path bucket st =
        .ok { st with aspect_ratio_bucket_indices :=
                updateValue st.aspect_ratio_bucket_indices bucket (imgs.erase image_path) } := by
      unfold remove_image
      simp only [hl]
      rw [if_pos hmem]
    have hb1 : lookupB (updateValue st.aspect_ratio_bucket_indices bucket
        (imgs.erase image_path)) bucket = some (imgs.erase image_path) :=
      lookupB_updateValue_self _ hl
    have hact1 : lookupB (updateValue st.aspect_ratio_bucket_indices bucket
        (imgs.erase image_path)) actual_bucket =
          lookupB st.aspect_ratio_bucket_indices actual_bucket :=
      lookupB_updateValue_ne _ _ _ hne
    unfold handle_incorrect_bucket
    rw [hrem]
    simp only [Bind.bind, Except.bind]
    cases hla : lookupB (updateValue st.aspect_ratio_bucket_indices bucket
        (imgs.erase image_path)) actual_bucket with
    | some v =>
      simp only [hla]
      refine ⟨_, rfl, ?_, ?_, ?_, rfl⟩
      · rw [lookupB_updateValue_ne _ _ _ (Ne.symm hne)]
        exact hb1
      · rw [lookupB_updateValue_self _ hla]
        rw [hact1] at hla
        rw [hla]
        rfl
      · intro b' hb' hba
        show lookupB (updateValue (updateValue st.aspect_ratio_bucket_indices bucket
          (imgs.erase image_path)) actual_bucket (v ++ [image_path])) b' = _
        rw [lookupB_updateValue_ne _ _ _ hba, lookupB_updateValue_ne _ _ _ hb']
    | none =>
      simp only [hla]
      refine ⟨_, rfl, ?_, ?_, ?_, rfl⟩
      · rw [lookupB_append_ne _ _ _ (Ne.symm hne)]
        exact hb1
      · rw [lookupB_append_of_none hla]
        rw [hact1] at hla
        rw [hla]
        rfl
      · intro b' hb' hba
        show lookupB (updateValue st.aspect_ratio_bucket_indices bucket
          (imgs.erase image_path) ++ [(actual_bucket, [image_path])]) b' = _
        rw [lookupB_append_ne _ _ _ hba, lookupB_updateValue_ne _ _ _ hb']
  · have herase : imgs.erase image_path = imgs := List.erase_of_not_mem hmem
    have hrem : remove_image image_path bucket st = .ok st := by
      unfold remove_image
      simp only [hl]
      rw [if_neg hmem]
    unfold handle_incorrect_bucket
    rw [hrem]
    simp only [Bind.bind, Except.bind]
    cases hla : lookupB st.aspect_ratio_bucket_indices actual_bucket with
    | some v =>
      simp only [hla]
      refine ⟨_, rfl, ?_, ?_, ?_, rfl⟩
      · rw [lookupB_updateValue_ne _ _ _ (Ne.symm hne), hl, herase]
      · rw [lookupB_updateValue_self _ hla]
        rfl
      · intro b' hb' hba
        show lookupB (updateValue st.aspect_ratio_bucket_indices actual_bucket
          (v ++ [image_path])) b' = _
        rw [lookupB_updateValue_ne _ _ _ hba]
    | none =>
      simp only [hla]
      refine ⟨_, rfl, ?_, ?_, ?_, rfl⟩
      · rw [lookupB_append_ne _ _ _ (Ne.symm hne), hl, herase]
      · rw [lookupB_append_of_none hla]
        rfl
      · intro b' hb' hba
        show lookupB (st.aspect_ratio_bucket_indices ++
          [(actual_bucket, [image_path])]) b' = _
        rw [lookupB_append_ne _ _ _ hba]

theorem handle_incorrect_bucket_moves_witness :
    (∃ st', handle_incorrect_bucket "x" "1:1" "16:9"
        ⟨[("1:1", ["x", "y"]), ("16:9", ["z"])], ["x", "y", "z"], 1⟩ = .ok st' ∧
      lookupB st'.aspect_ratio_bucket_indices "1:1" = some ["y"] ∧
      lookupB st'.aspect_ratio_bucket_indices "16:9" = some ["z", "x"] ∧
      (∀ b', b' ≠ "1:1" → b' ≠ "16:9" →
        lookupB st'.aspect_ratio_bucket_indices b' =
          lookupB [("1:1", ["x", "y"]), ("16:9", ["z"])] b') ∧
      st'.instance_images_path = ["x", "y", "z"]) ∧
    handle_incorrect_bucket "x" "1:1" "16:9"
        ⟨[("1:1", ["x", "y"]), ("16:9", ["z"])], ["x", "y", "z"], 1⟩ =
      .ok ⟨[("1:1", ["y"]), ("16:9", ["z", "x"])], ["x", "y", "z"], 1⟩ :=
  ⟨handle_incorrect_bucket_moves ⟨[("1:1", ["x", "y"]), ("16:9", ["z"])], ["x", "y", "z"], 1⟩
    "x" "1:1" "16:9" ["x", "y"] rfl (by decide), rfl⟩

/-- Helper for C9: a refresh on a state where compute is a no-op and the
stale-entry update leaves the state unchanged writes exactly the one
document of that update. -/
theorem refresh_eq_of_noop {assign : String → Option String}
    {listing : List (String × List String × List String)} {s : BucketState}
    {doc : String}
    (hc : compute_aspect_ratio_bucket_indices assign listing s = (s, []))
    (hu : update_buckets_with_existing_files
      (pySetOfList ((listing.map (fun e => e.2.2)).flatten)) s = (s, doc)) :
    refresh_buckets assign listing s = (s, [doc]) := by
  simp only [refresh_buckets, hc, hu, List.nil_append]

/-- C9: running `refresh_buckets` twice with the same backend listing leaves
the bucket index and the discovered set unchanged by the second call, and
the single cache document the second call persists is byte-identical to the
last document persisted by the first call. -/
theorem refresh_buckets_idempotent (assign : String → Option String)
    (listing : List (String × List String × List String)) (st : BucketState) :
    refresh_buckets assign listing (refresh_buckets assign listing st).1 =
      ((refresh_buckets assign listing st).1,
        [(refresh_buckets assign listing st).2.getLastD ""]) := by
  have himg : ∀ f ∈ (listing.map (fun e => e.2.2)).flatten,
      f ∈ (refresh_buckets assign listing st).1.instance_images_path := by
    intro f hf
    show f ∈ (update_buckets_with_existing_files
      (pySetOfList ((listing.map (fun e => e.2.2)).flatten))
      (compute_aspect_ratio_bucket_indices assign listing st).1).1.instance_images_path
    rw [update_result_images]
    exact compute_images_superset assign listing st f hf
  have hfacts := update_entry_facts
    (pySetOfList ((listing.map (fun e => e.2.2)).flatten))
    (compute_aspect_ratio_bucket_indices assign listing st).1
  have hdisc : _discover_new_files listing (refresh_buckets assign listing st).1 = [] :=
    discover_eq_nil himg
  have hcomp2 : compute_aspect_ratio_bucket_indices assign listing
      (refresh_buckets assign listing st).1 =
        ((refresh_buckets assign listing st).1, []) := compute_noop hdisc
  have hupd2 : update_buckets_with_existing_files
      (pySetOfList ((listing.map (fun e => e.2.2)).flatten))
      (refresh_buckets assign listing st).1 =
        ((refresh_buckets assign listing st).1,
          serializeCache
            (refresh_buckets assign listing st).1.aspect_ratio_bucket_indices
            (refresh_buckets assign listing st).1.instance_images_path) := by
    apply update_identity
    · intro e he p hp
      exact (hfacts e he).1 p hp
    · intro e he
      exact (hfacts e he).2
  have hfirstlast : (refresh_buckets assign listing st).2.getLastD "" =
      serializeCache
        (refresh_buckets assign listing st).1.aspect_ratio_bucket_indices
        (refresh_buckets assign listing st).1.instance_images_path := by
    show ((compute_aspect_ratio_bucket_indices assign listing st).2 ++
      [(update_buckets_with_existing_files
          (pySetOfList ((listing.map (fun e => e.2.2)).flatten))
          (compute_aspect_ratio_bucket_indices assign listing st).1).2]).getLastD "" = _
    rw [List.getLastD_concat]
    rfl
  rw [hfirstlast]
  exact refresh_eq_of_noop hcomp2 hupd2

/-- C10 counterexample: from the empty index, a compute step reaches the
index with buckets A and B; a `handle_incorrect_bucket` call whose
`image_path` is not in the claimed source bucket then duplicates the image
across two buckets: `"a"` ends up in both A and C. -/
theorem cross_bucket_duplication_reachable :
    (compute_aspect_ratio_bucket_indices
        (fun f => if f = "a" then some "A" else some "B")
        [("r", [], ["a", "x"])] ⟨[], [], 1⟩).1 =
      ⟨[("A", ["a"]), ("B", ["x"])], ["a", "x"], 1⟩ ∧
    handle_incorrect_bucket "a" "B" "C"
        ⟨[("A", ["a"]), ("B", ["x"])], ["a", "x"], 1⟩ =
      .ok ⟨[("A", ["a"]), ("B", ["x"]), ("C", ["a"])], ["a", "x"], 1⟩ ∧
    ("A", ["a"]) ∈ ([("A", ["a"]), ("B", ["x"]), ("C", ["a"])] : BucketIndex) ∧
    ("C", ["a"]) ∈ ([("A", ["a"]), ("B", ["x"]), ("C", ["a"])] : BucketIndex) ∧
    ¬ NoCrossDup [("A", ["a"]), ("B", ["x"]), ("C", ["a"])] := by
  refine ⟨rfl, rfl, by decide, by decide, ?_⟩
  intro h
  obtain ⟨hhead, _⟩ := noCrossDup_cons.mp h
  exact hhead ("C", ["a"]) (by decide) "a" (by decide) (by decide)

/-- C10 (amended): no image appears in two buckets in any state reachable
from a well-formed state (for example the empty index) through the manager
operations, provided `handle_incorrect_bucket` is only invoked when the
image actually occurs exactly once in the claimed source bucket — the
counterexample shows the invariant is otherwise violated. -/
theorem no_cross_duplication_of_reachable (s0 s : BucketState) (h0 : InvGood s0)
    (hr : Relation.ReflTransGen Step s0 s) :
    NoCrossDup s.aspect_ratio_bucket_indices :=
  (reachable_invGood h0 hr).2

theorem no_cross_duplication_of_reachable_witness :
    NoCrossDup ([("A", []), ("B", ["x", "a"])] : BucketIndex) := by
  have step1 : Step (⟨[], [], 1⟩ : BucketState)
      ⟨[("A", ["a"]), ("B", ["x"])], ["a", "x"], 1⟩ :=
    Step.compute (fun f => if f = "a" then some "A" else some "B")
      [("r", [], ["a", "x"])] ⟨[], [], 1⟩
  have step2 : Step (⟨[("A", ["a"]), ("B", ["x"])], ["a", "x"], 1⟩ : BucketState)
      ⟨[("A", []), ("B", ["x", "a"])], ["a", "x"], 1⟩ :=
    Step.moveImg "a" "A" "B" ["a"] _ _ rfl rfl rfl
  exact no_cross_duplication_of_reachable ⟨[], [], 1⟩
    ⟨[("A", []), ("B", ["x", "a"])], ["a", "x"], 1⟩
    ⟨by simp [NodupKeys], List.Pairwise.nil⟩
    (Relation.ReflTransGen.tail (Relation.ReflTransGen.tail
      Relation.ReflTransGen.refl step1) step2)

end SimpleTuner
